import Mathlib

/-!
Verification development for the HTML-resume-to-Word converter
(src/html_to_word.py and src/main.py).

The parsed HTML tree (the BeautifulSoup object) is modelled as a mutual
inductive of element/text nodes; the python-docx output is modelled as
lists of paragraph records carrying runs with explicit font sizes
(rational points), spacing, indentation, borders and tab stops.
Python float values are modelled as exact rationals.  So that every
definition evaluates inside the kernel, rational constants are written
with mkRat and multiplication with ratMul, which is proved equal to
ordinary rational multiplication below.  Python str.strip and the regex
character classes are modelled over the ASCII whitespace set.
-/

mutual
/-- A node of the parsed HTML tree: a NavigableString, or a Tag with a
name, a class list and children. -/
inductive Node where
  | text (s : String)
  | elem (name : String) (classes : List String) (children : NodeList)
deriving DecidableEq
/-- A sibling list of tree nodes. -/
inductive NodeList where
  | nil
  | cons (n : Node) (rest : NodeList)
deriving DecidableEq
end

def nlOfList : List Node → NodeList
  | [] => .nil
  | n :: r => .cons n (nlOfList r)

def nlToList : NodeList → List Node
  | .nil => []
  | .cons n r => n :: nlToList r

def nlAppend : NodeList → NodeList → NodeList
  | .nil, b => b
  | .cons n r, b => .cons n (nlAppend r b)

/-- Shorthand for building element nodes of concrete documents. -/
def el (name : String) (classes : List String) (children : List Node) : Node :=
  .elem name classes (nlOfList children)

/-- Shorthand for building text nodes of concrete documents. -/
def tx (s : String) : Node := .text s

/-- Kernel-reducible product of two rationals:
mkRat (a.num * b.num) (a.den * b.den).  Used in place of the opaque
rational multiplication so that concrete documents evaluate; it is
proved below to agree with ordinary multiplication. -/
def ratMul (a b : ℚ) : ℚ := mkRat (a.num * b.num) (a.den * b.den)

/-- Whitespace recognized by the Python regex class and by str.strip,
restricted to ASCII. -/
def pyWs (c : Char) : Bool :=
  c = ' ' || c = '\t' || c = '\n' || c = '\r' || c = '\x0b' || c = '\x0c'

/-- Newline or carriage return: the source regex class of
re.sub applied to every text piece. -/
def isNL (c : Char) : Bool := c = '\n' || c = '\r'

/-- Kernel of the source expression replacing each maximal run of
newline/carriage-return characters by a single space
(the regex substitution in the walker).  The boolean flag records
whether the previous character belonged to such a run. -/
def collapseNLAux : Bool → List Char → List Char
  | _, [] => []
  | inRun, c :: rest =>
    if isNL c then
      (if inRun then [] else [' ']) ++ collapseNLAux true rest
    else c :: collapseNLAux false rest

def collapseNL (cs : List Char) : List Char := collapseNLAux false cs

/-- Python str.strip() on a character list (ASCII whitespace). -/
def pyStripL (cs : List Char) : List Char :=
  ((cs.dropWhile pyWs).reverse.dropWhile pyWs).reverse

def pyStripS (s : String) : String := String.mk (pyStripL s.data)

/-- Whitespace normalization applied by the walker to every piece of
text before it can become a run: newline runs become single spaces,
then the edges are stripped. -/
def normalizeText (s : String) : String :=
  pyStripS (String.mk (collapseNL s.data))

mutual
/-- All NavigableString descendants of a node, in document order. -/
def stringsOf : Node → List String
  | .text s => [s]
  | .elem _ _ cs => stringsOfL cs
/-- All NavigableString descendants of a sibling list, in order. -/
def stringsOfL : NodeList → List String
  | .nil => []
  | .cons n rest => stringsOf n ++ stringsOfL rest
end

/-- Model of get_text with a single-space separator and no stripping,
over the children of an element: all descendant strings joined by one
space. -/
def getTextSpaceL (cs : NodeList) : String :=
  String.intercalate " " (stringsOfL cs)

/-- Model of get_text with strip=True: each descendant string is
stripped, empty results are dropped, the rest are concatenated. -/
def getTextStripped (n : Node) : String :=
  String.join (((stringsOf n).map pyStripS).filter (fun s => !(s = "")))

/-- Model of the string property of a tag: the single string of a tag
whose content chain has exactly one child, else none. -/
def nodeString : Node → Option String
  | .text s => some s
  | .elem _ _ (.cons c .nil) => nodeString c
  | .elem _ _ _ => none

/-- Tag-name filter, as used by find_all on style or li tags;
NavigableStrings never match. -/
def isTag (nm : String) : Node → Bool
  | .text _ => false
  | .elem n _ _ => n = nm

/-- Tag-name plus CSS-class filter, as used by find on spans and divs:
the class matches when it is one of the element's classes. -/
def isTagClass (nm c : String) : Node → Bool
  | .text _ => false
  | .elem n cls _ => n = nm && cls.contains c

def isDotSpan : Node → Bool := isTagClass "span" "dot"
def isRightSpan : Node → Bool := isTagClass "span" "right-span"
def isNameHeader : Node → Bool := isTagClass "div" "name-header"
def isContactDiv : Node → Bool := isTagClass "div" "contact-info"
def isSectionTitleDiv : Node → Bool := isTagClass "div" "section-title"
def isSectionUl : Node → Bool := isTagClass "ul" "ul-section"

mutual
/-- Model of find on one subtree: first matching node in document
(preorder) order. -/
def findFirst (p : Node → Bool) : Node → Option Node
  | .text s => if p (.text s) then some (.text s) else none
  | .elem nm cl cs =>
    if p (.elem nm cl cs) then some (.elem nm cl cs) else findFirstL p cs
/-- Model of find over a list of subtrees. -/
def findFirstL (p : Node → Bool) : NodeList → Option Node
  | .nil => none
  | .cons n rest =>
    match findFirst p n with
    | some m => some m
    | none => findFirstL p rest
end

/-- Model of find_next_sibling: first matching node among the following
siblings, skipping non-matching siblings. -/
def findSibling (p : Node → Bool) : NodeList → Option Node
  | .nil => none
  | .cons n rest => if p n then some n else findSibling p rest

mutual
/-- Model of find_all by tag name on one subtree, in document order. -/
def findAllTagN (nm : String) : Node → List Node
  | .text _ => []
  | .elem n cl cs =>
    (if n = nm then [Node.elem n cl cs] else []) ++ findAllTagL nm cs
/-- Model of find_all by tag name over a list of subtrees. -/
def findAllTagL (nm : String) : NodeList → List Node
  | .nil => []
  | .cons n rest => findAllTagN nm n ++ findAllTagL nm rest
end

/-- Model of find_all with recursive=False for li items: only the
direct children that are li elements. -/
def directLis : NodeList → List Node
  | .nil => []
  | .cons n rest => (if isTag "li" n then [n] else []) ++ directLis rest

def nodeChildren : Node → NodeList
  | .text _ => .nil
  | .elem _ _ cs => cs

def directLiChildren (n : Node) : List Node := directLis (nodeChildren n)

mutual
/-- Removal of the first matching node (document order) from a sibling
list, as performed by find followed by extract; returns the modified
list and the removed node. -/
def extractL (p : Node → Bool) : NodeList → Option (NodeList × Node)
  | .nil => none
  | .cons n rest =>
    if p n then some (rest, n)
    else
      match extractInto p n with
      | some (n2, found) => some (.cons n2 rest, found)
      | none =>
        match extractL p rest with
        | some (rest2, found) => some (.cons n rest2, found)
        | none => none
/-- Removal of the first matching node from inside one node. -/
def extractInto (p : Node → Bool) : Node → Option (Node × Node)
  | .text _ => none
  | .elem nm cl cs =>
    match extractL p cs with
    | some (cs2, found) => some (.elem nm cl cs2, found)
    | none => none
end

mutual
/-- All matches of a node filter inside one subtree, each paired with
its list of following siblings (the context later consumed by
find_next_sibling); matches are in document order. -/
def collectSecs (p : Node → Bool) : Node → List (Node × NodeList)
  | .text _ => []
  | .elem _ _ cs => collectSecsL p cs
/-- All matches over a list of subtrees with their sibling contexts. -/
def collectSecsL (p : Node → Bool) : NodeList → List (Node × NodeList)
  | .nil => []
  | .cons n rest =>
    (if p n then [(n, rest)] else []) ++ collectSecs p n ++ collectSecsL p rest
end

/-! ## The style extractor -/

/-- Case-insensitive literal prefix match; the pattern is given in
lowercase.  Returns the remaining input on success. -/
def prefixCI : List Char → List Char → Option (List Char)
  | [], cs => some cs
  | _ :: _, [] => none
  | p :: ps, c :: cs => if c.toLower = p then prefixCI ps cs else none

/-- One attempt of the page-container block regex (the a4-page selector
followed by optional whitespace and a brace-delimited declaration
block, IGNORECASE) at the start of the input; on success returns the
matched substring, which ends at the first closing brace. -/
def matchA4At (cs : List Char) : Option (List Char) :=
  match prefixCI ".a4-page".data cs with
  | none => none
  | some r1 =>
    let ws := r1.takeWhile pyWs
    let r2 := r1.dropWhile pyWs
    match r2 with
    | [] => none
    | c :: r3 =>
      if c = '\x7b' then
        let inner := r3.takeWhile (fun d => !(d = '\x7d'))
        let r4 := r3.dropWhile (fun d => !(d = '\x7d'))
        match r4 with
        | [] => none
        | _ :: _ => some (cs.take (8 + ws.length + 1 + inner.length + 1))
      else none

/-- Leftmost match of the page-container block regex, as re.search. -/
def searchA4 : List Char → Option (List Char)
  | [] => none
  | c :: rest =>
    match matchA4At (c :: rest) with
    | some m => some m
    | none => searchA4 rest

/-- One attempt of the font-size declaration regex (property name,
optional whitespace, colon, a group of digits and dots, then an
optional unit among pt, px, em, rem; IGNORECASE) at the start of the
input; returns the number group and the lowercased unit defaulted to
pt, as in the source. -/
def matchFsAt (cs : List Char) : Option (List Char × String) :=
  match prefixCI "font-size".data cs with
  | none => none
  | some r1 =>
    let r2 := r1.dropWhile pyWs
    match r2 with
    | ':' :: r3 =>
      let r4 := r3.dropWhile pyWs
      let num := r4.takeWhile (fun c => c.isDigit || c = '.')
      let r5 := r4.dropWhile (fun c => c.isDigit || c = '.')
      if num.isEmpty then none
      else
        let r6 := r5.dropWhile pyWs
        let unit :=
          if (prefixCI "pt".data r6).isSome then "pt"
          else if (prefixCI "px".data r6).isSome then "px"
          else if (prefixCI "em".data r6).isSome then "em"
          else if (prefixCI "rem".data r6).isSome then "rem"
          else "pt"
        some (num, unit)
    | _ => none

/-- Leftmost match of the font-size pattern inside the block. -/
def findFontSize : List Char → Option (List Char × String)
  | [] => none
  | c :: rest =>
    match matchFsAt (c :: rest) with
    | some r => some r
    | none => findFontSize rest

/-- One attempt of the line-height declaration regex (property name,
colon, a group of digits and dots; IGNORECASE). -/
def matchLhAt (cs : List Char) : Option (List Char) :=
  match prefixCI "line-height".data cs with
  | none => none
  | some r1 =>
    let r2 := r1.dropWhile pyWs
    match r2 with
    | ':' :: r3 =>
      let r4 := r3.dropWhile pyWs
      let num := r4.takeWhile (fun c => c.isDigit || c = '.')
      if num.isEmpty then none else some num
    | _ => none

/-- Leftmost match of the line-height pattern inside the block. -/
def findLineHeight : List Char → Option (List Char)
  | [] => none
  | c :: rest =>
    match matchLhAt (c :: rest) with
    | some r => some r
    | none => findLineHeight rest

def digitsVal (cs : List Char) : ℕ :=
  cs.foldl (fun a c => 10 * a + (c.toNat - 48)) 0

/-- Python float applied to a regex group made of digits and dots: it
succeeds exactly when the string has at most one dot and at least one
digit (otherwise float raises ValueError, modelled as none), and its
value is the usual decimal value. -/
def pyFloat (cs : List Char) : Option ℚ :=
  if (cs.filter (fun c => c = '.')).length ≤ 1 && cs.any Char.isDigit then
    some (mkRat
      (digitsVal (cs.takeWhile (fun c => !(c = '.')) ++
        ((cs.dropWhile (fun c => !(c = '.'))).drop 1)))
      (10 ^ ((cs.dropWhile (fun c => !(c = '.'))).drop 1).length))
  else none

/-- The unit table of the style extractor: pt is identity, px
multiplies by 0.75, em and rem by 12, anything else falls through to
the value itself. -/
def convertUnit (v : ℚ) (u : String) : ℚ :=
  if u = "pt" then v
  else if u = "px" then ratMul v (mkRat 75 100)
  else if u = "em" || u = "rem" then ratMul v 12
  else v

/-- The body of the style-tag loop of the style extractor for one style
text, updating the accumulated pair of font size and line height; none
models a ValueError escaping from float. -/
def extractStep (acc : ℚ × ℚ) (css : List Char) : Option (ℚ × ℚ) :=
  match searchA4 css with
  | none => some acc
  | some block =>
    let fs? : Option ℚ :=
      match findFontSize block with
      | none => some acc.1
      | some (num, u) => (pyFloat num).map (fun v => convertUnit v u)
    let lh? : Option ℚ :=
      match findLineHeight block with
      | none => some acc.2
      | some num => pyFloat num
    match fs?, lh? with
    | some f, some l => some (f, l)
    | _, _ => none

/-- The style extractor over the texts of all style tags, starting from
the defaults of 11 points and a 1.15 line-height multiplier. -/
def extractCssContents (l : List (List Char)) : Option (ℚ × ℚ) :=
  l.foldlM extractStep (11, mkRat 115 100)

/-- The texts of all style tags of the document (the string property
of each tag, or the empty string). -/
def styleContents (roots : NodeList) : List (List Char) :=
  (findAllTagL "style" roots).map (fun t => ((nodeString t).getD "").data)

/-- The full style extractor applied to the document. -/
def extractCssStyles (roots : NodeList) : Option (ℚ × ℚ) :=
  extractCssContents (styleContents roots)

/-! ## The output document model and the converter -/

/-- One docx run: its text, font size in points, and formatting flags. -/
structure Run where
  text : String
  sizePt : ℚ
  bold : Bool
  italic : Bool
deriving DecidableEq

/-- One docx paragraph as produced by the converter. -/
structure Para where
  runs : List Run
  centered : Bool
  bottomBorder : Bool
  spaceBeforePt : Option ℚ
  spaceAfterPt : Option ℚ
  lineSpacing : Option ℚ
  leftIndentInches : Option ℚ
  rightTabStopInches : Option ℚ
deriving DecidableEq

/-- A typed text fragment produced by the walker, before it is turned
into a run at the body font size. -/
structure Fragment where
  text : String
  bold : Bool
  italic : Bool
deriving DecidableEq

/-- The emptiness guard of the walker: an empty normalized text yields
no fragment at all. -/
def optFrag (s : String) (b i : Bool) : List Fragment :=
  if s = "" then [] else [⟨s, b, i⟩]

mutual
/-- The branch dispatch of the walker, shared verbatim by the child
loop of the list-item assembler and by the recursive nested-element
walker: a b or strong tag yields one bold fragment from the full
element text, an i or em tag one italic fragment, span, div and p are
recursed into, and any other tag and any NavigableString yield one
plain fragment; every text goes through whitespace normalization and
empty results are dropped. -/
def childFrags : Node → List Fragment
  | .text s => optFrag (normalizeText s) false false
  | .elem nm _ cs =>
    if nm = "b" || nm = "strong" then
      optFrag (normalizeText (getTextSpaceL cs)) true false
    else if nm = "i" || nm = "em" then
      optFrag (normalizeText (getTextSpaceL cs)) false true
    else if nm = "span" || nm = "div" || nm = "p" then fragsOfL cs
    else optFrag (normalizeText (getTextSpaceL cs)) false false
/-- The walker over a list of children, concatenating in order. -/
def fragsOfL : NodeList → List Fragment
  | .nil => []
  | .cons n rest => childFrags n ++ fragsOfL rest
end

/-- A fragment becomes a run at the body font size with its flags kept
verbatim. -/
def fragRun (b : ℚ) (f : Fragment) : Run :=
  { text := f.text, sizePt := b, bold := f.bold, italic := f.italic }

/-- The run appended for a non-empty right-aligned text: a tab followed
by the text, at body font size. -/
def tabRuns (rightText : String) (b : ℚ) : List Run :=
  if rightText = "" then []
  else [{ text := "\t" ++ rightText, sizePt := b, bold := false, italic := false }]

/-- The paragraph built by the list-item assembler from the already
marker-stripped children of a list item: optional bullet run and
0.3-inch indent, one run per fragment, optional tab run with a
right-aligned 6-inch tab stop, 1pt spacing and the extracted line
height. -/
def listItemPara (cs : NodeList) (hasDot : Bool) (rightText : String)
    (b lh : ℚ) : Para :=
  { runs :=
      (if hasDot then [{ text := "• ", sizePt := b, bold := false, italic := false }] else [])
        ++ (fragsOfL cs).map (fragRun b) ++ tabRuns rightText b,
    centered := false, bottomBorder := false,
    spaceBeforePt := some 1, spaceAfterPt := some 1, lineSpacing := some lh,
    leftIndentInches := if hasDot then some (mkRat 3 10) else none,
    rightTabStopInches := if rightText = "" then none else some 6 }

/-- The per-item body of the list processor: record whether a dot span
is present anywhere below the item, extract the first right-span
(keeping its stripped text), then extract the first dot span, then
build the paragraph from what remains. -/
def processLi (li : Node) (b lh : ℚ) : Para :=
  let cs := nodeChildren li
  let hasDot := (findFirstL isDotSpan cs).isSome
  let pr := extractL isRightSpan cs
  let rightText := match pr with | some (_, r) => getTextStripped r | none => ""
  let cs1 := match pr with | some (cs1, _) => cs1 | none => cs
  let cs2 := match extractL isDotSpan cs1 with | some (cs2, _) => cs2 | none => cs1
  listItemPara cs2 hasDot rightText b lh

/-- The list processor: one paragraph per direct li child of the ul. -/
def processList (ul : Node) (b lh : ℚ) : List Para :=
  (directLiChildren ul).map (fun li => processLi li b lh)

/-- The name-header part of the header processor: a centered bold run
at 2.38 times the base size, 6pt space after. -/
def nameParas (roots : NodeList) (b : ℚ) : List Para :=
  match findFirstL isNameHeader roots with
  | none => []
  | some n =>
    [{ runs := [{ text := getTextStripped n, sizePt := ratMul b (mkRat 238 100),
                  bold := true, italic := false }],
       centered := true, bottomBorder := false,
       spaceBeforePt := none, spaceAfterPt := some 6,
       lineSpacing := none, leftIndentInches := none, rightTabStopInches := none }]

/-- The contact-info part of the header processor: a centered plain run
at 1.14 times the base size, 12pt space after. -/
def contactParas (roots : NodeList) (b : ℚ) : List Para :=
  match findFirstL isContactDiv roots with
  | none => []
  | some n =>
    [{ runs := [{ text := getTextStripped n, sizePt := ratMul b (mkRat 114 100),
                  bold := false, italic := false }],
       centered := true, bottomBorder := false,
       spaceBeforePt := none, spaceAfterPt := some 12,
       lineSpacing := none, leftIndentInches := none, rightTabStopInches := none }]

/-- The header processor: name paragraph if present, then contact
paragraph if present. -/
def processHeader (roots : NodeList) (b : ℚ) : List Para :=
  nameParas roots b ++ contactParas roots b

/-- An empty paragraph whose only property is its space-after value:
the separators emitted between header and sections and between
sections. -/
def blankPara (after : ℚ) : Para :=
  { runs := [], centered := false, bottomBorder := false,
    spaceBeforePt := none, spaceAfterPt := some after,
    lineSpacing := none, leftIndentInches := none, rightTabStopInches := none }

/-- The section-title paragraph: a bold run at 1.24 times the base
size, a single-line bottom border, 6pt spacing before and after. -/
def sectionTitlePara (title : String) (b : ℚ) : Para :=
  { runs := [{ text := title, sizePt := ratMul b (mkRat 124 100),
               bold := true, italic := false }],
    centered := false, bottomBorder := true,
    spaceBeforePt := some 6, spaceAfterPt := some 6,
    lineSpacing := none, leftIndentInches := none, rightTabStopInches := none }

/-- One iteration of the section loop: the title paragraph, then the
items of the first following sibling ul with the section list class if
one exists (find_next_sibling), else nothing. -/
def sectionParas (sec : Node) (sibs : NodeList) (b lh : ℚ) : List Para :=
  sectionTitlePara (getTextStripped sec) b ::
    (match findSibling isSectionUl sibs with
     | some u => processList u b lh
     | none => [])

/-- The section loop: an 8pt blank separator after every section except
the last. -/
def renderSections (b lh : ℚ) : List (Node × NodeList) → List Para
  | [] => []
  | [(s, sb)] => sectionParas s sb b lh
  | (s, sb) :: rest =>
    sectionParas s sb b lh ++ (blankPara 8 :: renderSections b lh rest)

/-- The section processor over the whole document. -/
def processSections (roots : NodeList) (b lh : ℚ) : List Para :=
  renderSections b lh (collectSecsL isSectionTitleDiv roots)

/-- The paragraph stream produced by the converter: header paragraphs,
a blank separator with 6pt space-after, then the sections.  A none
result models an exception escaping from the style extraction. -/
def htmlToWordParas (roots : NodeList) : Option (List Para) :=
  (extractCssStyles roots).map (fun m =>
    processHeader roots m.1 ++ (blankPara 6 :: processSections roots m.1 m.2))

/-- The html2word endpoint of main.py: an empty or whitespace-only
input raises HTTP 400 before the converter (and hence any Document) is
invoked; otherwise the input is parsed and converted. -/
def html2wordEndpoint (htmlContent : String) (parse : String → NodeList) :
    Except Nat (Option (List Para)) :=
  if htmlContent = "" || pyStripS htmlContent = "" then .error 400
  else .ok (htmlToWordParas (parse htmlContent))

/-! ## Bridging lemmas for rational arithmetic -/

theorem mkRatDiv (n : ℤ) (d : ℕ) : mkRat n d = (n : ℚ) / (d : ℚ) := by
  rw [Rat.mkRat_eq_divInt, Rat.divInt_eq_div]
  norm_num

theorem ratMul_eq (a b : ℚ) : ratMul a b = a * b := by
  rw [ratMul, mkRatDiv]
  push_cast
  rw [mul_div_mul_comm, Rat.num_div_den, Rat.num_div_den]

theorem ratMul_238 (b : ℚ) : ratMul b (mkRat 238 100) = b * 2.38 := by
  rw [ratMul_eq, mkRatDiv]; norm_num

theorem ratMul_114 (b : ℚ) : ratMul b (mkRat 114 100) = b * 1.14 := by
  rw [ratMul_eq, mkRatDiv]; norm_num

theorem ratMul_124 (b : ℚ) : ratMul b (mkRat 124 100) = b * 1.24 := by
  rw [ratMul_eq, mkRatDiv]; norm_num

theorem ratMul_075 (v : ℚ) : ratMul v (mkRat 75 100) = v * 0.75 := by
  rw [ratMul_eq, mkRatDiv]; norm_num

theorem ratMul_12 (v : ℚ) : ratMul v 12 = v * 12 := by
  rw [ratMul_eq]

theorem mkRat_115 : mkRat 115 100 = (1.15 : ℚ) := by
  rw [mkRatDiv]; norm_num

theorem mkRat_105_10 : mkRat 105 10 = (10.5 : ℚ) := by
  rw [mkRatDiv]; norm_num

theorem mkRat_16_10 : mkRat 16 10 = (1.6 : ℚ) := by
  rw [mkRatDiv]; norm_num

/-! ## Shared helper lemmas -/

theorem processHeader_runs_ne_nil (roots : NodeList) (b : ℚ) :
    ∀ p ∈ processHeader roots b, p.runs ≠ [] := by
  intro p hp
  rcases List.mem_append.mp hp with h1 | h1
  · unfold nameParas at h1
    rcases hf : findFirstL isNameHeader roots with _ | n <;> rw [hf] at h1
    · simp at h1
    · simp at h1
      rw [h1]
      simp
  · unfold contactParas at h1
    rcases hf : findFirstL isContactDiv roots with _ | n <;> rw [hf] at h1
    · simp at h1
    · simp at h1
      rw [h1]
      simp

/-- C2: an empty or whitespace-only input string is rejected by the
endpoint with HTTP 400 before the converter runs, so no document object
is ever created for it; the result is the error, not a document. -/
theorem c2_empty_input_rejected (s : String) (parse : String → NodeList)
    (h : pyStripS s = "") : html2wordEndpoint s parse = .error 400 := by
  simp [html2wordEndpoint, h]

theorem c2_witness :
    pyStripS " \n\t " = "" ∧
      html2wordEndpoint " \n\t " (fun _ => .nil) = .error 400 :=
  ⟨rfl, c2_empty_input_rejected " \n\t " (fun _ => .nil) rfl⟩

/-- C5 counterexample: the separator paragraph inserted after the
header area carries a 6pt space-after, not the 8pt claimed; on the
empty document the whole output is exactly that separator. -/
theorem c5_counterexample :
    htmlToWordParas .nil = some [blankPara 6] ∧
      (blankPara 6).spaceAfterPt ≠ some 8 := by
  refine ⟨by decide, by decide⟩

/-- C5 (amended): for every input, exactly one blank separator
paragraph with 6pt (not 8pt) space-after is inserted after the header
area and before any section, regardless of whether a name block or a
contact block was present; header paragraphs themselves always carry a
run, so the separator is the unique blank paragraph of the header
area. -/
theorem c5_separator_after_header (roots : NodeList) (b lh : ℚ)
    (h : extractCssStyles roots = some (b, lh)) :
    htmlToWordParas roots =
      some (processHeader roots b ++ (blankPara 6 :: processSections roots b lh))
    ∧ (blankPara 6).runs = [] ∧ (blankPara 6).spaceAfterPt = some 6
    ∧ ∀ p ∈ processHeader roots b, p.runs ≠ [] := by
  exact ⟨by simp [htmlToWordParas, h], rfl, rfl, processHeader_runs_ne_nil roots b⟩

theorem c5_witness :
    extractCssStyles (nlOfList [el "div" ["name-header"] [tx "N"]]) =
      some (11, mkRat 115 100) ∧
    htmlToWordParas (nlOfList [el "div" ["name-header"] [tx "N"]]) =
      some (processHeader (nlOfList [el "div" ["name-header"] [tx "N"]]) 11 ++
        (blankPara 6 :: processSections (nlOfList [el "div" ["name-header"] [tx "N"]])
          11 (mkRat 115 100))) :=
  ⟨by decide,
    (c5_separator_after_header (nlOfList [el "div" ["name-header"] [tx "N"]])
      11 (mkRat 115 100) (by decide)).1⟩

/-- C3 counterexample: with two style tags each containing a matching
page-container block, the extracted font size comes from the later
block (20pt), not from the first one (10pt): later matching blocks in
later style tags overwrite earlier ones. -/
theorem c3_counterexample :
    extractCssStyles (nlOfList [
        el "style" [] [tx ".a4-page\x7bfont-size:10pt\x7d"],
        el "style" [] [tx ".a4-page\x7bfont-size:20pt\x7d"]]) =
      some (20, mkRat 115 100) ∧
    extractCssStyles (nlOfList [
        el "style" [] [tx ".a4-page\x7bfont-size:10pt\x7d"],
        el "style" [] [tx ".a4-page\x7bfont-size:20pt\x7d"]]) ≠
      some (10, mkRat 115 100) := by
  refine ⟨by decide, by decide⟩

/-- C3 (amended): within one style text only the first matching
declaration block is used (the search returns the leftmost match), but
the style tags of the document are folded in order, so when several
style tags each contain a matching block, each is applied in turn and
the last one determines the extracted values. -/
theorem c3_first_block_per_tag_last_tag_wins :
    (∀ (c1 c2 : List Char) (m1 m2 : ℚ × ℚ),
      extractStep (11, mkRat 115 100) c1 = some m1 →
      extractStep m1 c2 = some m2 →
      extractCssContents [c1, c2] = some m2)
    ∧ extractCssContents
        [".a4-page\x7bfont-size:10pt\x7d x .a4-page\x7bfont-size:20pt\x7d".data] =
        some (10, mkRat 115 100) := by
  constructor
  · intro c1 c2 m1 m2 h1 h2
    simp [extractCssContents, h1, h2]
  · decide

theorem c3_witness :
    extractCssContents
      [".a4-page\x7bfont-size:10pt\x7d".data, ".a4-page\x7bfont-size:20pt\x7d".data] =
      some (20, mkRat 115 100) :=
  c3_first_block_per_tag_last_tag_wins.1
    ".a4-page\x7bfont-size:10pt\x7d".data ".a4-page\x7bfont-size:20pt\x7d".data
    (10, mkRat 115 100) (20, mkRat 115 100) (by decide) (by decide)

theorem findSibling_none_iff (p : Node → Bool) : ∀ (sibs : NodeList),
    findSibling p sibs = none ↔ ∀ n ∈ nlToList sibs, p n = false
  | .nil => by simp [findSibling, nlToList]
  | .cons n rest => by
    rw [findSibling, nlToList]
    by_cases h : p n
    · simp [h]
    · simp [h, findSibling_none_iff p rest]

/-- C1 counterexample: a section title whose immediate following
sibling is a plain paragraph, followed only later by a qualifying list,
still renders that list's item: the orchestrator searches forward past
the intervening sibling, so the output has two paragraphs (title and
item), not the single title paragraph the claim requires. -/
theorem c1_counterexample :
    processSections (nlOfList [
        el "div" ["section-title"] [tx "T"],
        el "p" [] [tx "skip"],
        el "ul" ["ul-section"] [el "li" [] [tx "X"]]]) 11 1 =
      [sectionTitlePara "T" 11, listItemPara (nlOfList [tx "X"]) false "" 11 1]
    ∧ (processSections (nlOfList [
        el "div" ["section-title"] [tx "T"],
        el "p" [] [tx "skip"],
        el "ul" ["ul-section"] [el "li" [] [tx "X"]]]) 11 1).length ≠ 1 := by
  refine ⟨by decide, by decide⟩

/-- C1 (amended): each section title is paired with the first following
sibling that is a qualifying list, skipping intervening non-matching
siblings; a section renders with zero items exactly when no following
sibling at all is a qualifying list. -/
theorem c1_title_pairs_with_first_following_ul (sec : Node) (sibs : NodeList)
    (b lh : ℚ) :
    (findSibling isSectionUl sibs = none →
      sectionParas sec sibs b lh = [sectionTitlePara (getTextStripped sec) b])
    ∧ (∀ u, findSibling isSectionUl sibs = some u →
      sectionParas sec sibs b lh =
        sectionTitlePara (getTextStripped sec) b :: processList u b lh)
    ∧ (findSibling isSectionUl sibs = none ↔
      ∀ n ∈ nlToList sibs, isSectionUl n = false) := by
  refine ⟨?_, ?_, findSibling_none_iff isSectionUl sibs⟩
  · intro h
    simp [sectionParas, h]
  · intro u h
    simp [sectionParas, h]

theorem c1_witness :
    sectionParas (el "div" ["section-title"] [tx "T"])
      (nlOfList [el "p" [] [tx "skip"],
        el "ul" ["ul-section"] [el "li" [] [tx "X"]]]) 11 1 =
      sectionTitlePara (getTextStripped (el "div" ["section-title"] [tx "T"])) 11 ::
        processList (el "ul" ["ul-section"] [el "li" [] [tx "X"]]) 11 1 :=
  (c1_title_pairs_with_first_following_ul (el "div" ["section-title"] [tx "T"])
      (nlOfList [el "p" [] [tx "skip"],
        el "ul" ["ul-section"] [el "li" [] [tx "X"]]]) 11 1).2.1
    (el "ul" ["ul-section"] [el "li" [] [tx "X"]]) (by decide)

theorem foldlM_extractStep_none : ∀ (l : List (List Char)) (acc : ℚ × ℚ),
    (∀ c ∈ l, searchA4 c = none) → l.foldlM extractStep acc = some acc
  | [], _, _ => rfl
  | c :: rest, acc, h => by
    have hc : searchA4 c = none := h c (by simp)
    have hstep : extractStep acc c = some acc := by
      simp [extractStep, hc]
    rw [List.foldlM_cons, hstep]
    exact foldlM_extractStep_none rest acc (fun d hd => h d (by simp [hd]))

/-- C6: for a style rule whose font-size declaration is found with a
recognized (or absent, defaulted-to-pt) unit, the extracted base size is
the declared value converted by the fixed unit table (pt identity,
px times 0.75, em and rem times 12); when no style tag contains a
matching block the defaults (11, 1.15) are kept; when a block matches
but declares neither property both defaults are kept; and the concrete
rule of scenario B yields exactly (10.5, 1.6). -/
theorem c6_unit_table_and_defaults :
    (∀ (acc : ℚ × ℚ) (css block num : List Char) (u : String) (v f l : ℚ),
      searchA4 css = some block →
      findFontSize block = some (num, u) →
      pyFloat num = some v →
      extractStep acc css = some (f, l) →
      f = convertUnit v u)
    ∧ (∀ v : ℚ, convertUnit v "pt" = v ∧ convertUnit v "px" = v * 0.75 ∧
        convertUnit v "em" = v * 12 ∧ convertUnit v "rem" = v * 12)
    ∧ (∀ roots : NodeList, (∀ c ∈ styleContents roots, searchA4 c = none) →
        extractCssStyles roots = some (11, 1.15))
    ∧ (∀ (acc : ℚ × ℚ) (css block : List Char),
        searchA4 css = some block → findFontSize block = none →
        findLineHeight block = none → extractStep acc css = some acc)
    ∧ extractCssStyles (nlOfList [el "style" []
        [tx ".a4-page\x7bfont-size:10.5pt;line-height:1.6\x7d"]]) =
        some (10.5, 1.6) := by
  refine ⟨?_, ?_, ?_, ?_, ?_⟩
  · intro acc css block num u v f l h1 h2 h3 h4
    simp only [extractStep, h1, h2, h3, Option.map_some] at h4
    rcases hlh : findLineHeight block with _ | num2 <;>
      simp only [hlh] at h4
    · simp at h4
      exact h4.1.symm
    · rcases hpf : pyFloat num2 with _ | l2 <;> simp only [hpf] at h4
      · simp at h4
      · simp at h4
        exact h4.1.symm
  · intro v
    refine ⟨by simp [convertUnit], ?_, ?_, ?_⟩ <;>
      simp [convertUnit, ratMul_075, ratMul_12]
  · intro roots hnone
    have h := foldlM_extractStep_none (styleContents roots) (11, mkRat 115 100) hnone
    rw [extractCssStyles, extractCssContents, h, mkRat_115]
  · intro acc css block h1 h2 h3
    simp only [extractStep, h1, h2, h3]
  · have h : extractCssStyles (nlOfList [el "style" []
        [tx ".a4-page\x7bfont-size:10.5pt;line-height:1.6\x7d"]]) =
        some (mkRat 105 10, mkRat 16 10) := by decide
    rw [h, mkRat_105_10, mkRat_16_10]

theorem c6_witness :
    mkRat 21 2 = convertUnit (mkRat 14 1) "px" ∧
    extractCssStyles (nlOfList [el "style" []
      [tx ".a4-page\x7bfont-size:10.5pt;line-height:1.6\x7d"]]) = some (10.5, 1.6) :=
  ⟨c6_unit_table_and_defaults.1 (11, mkRat 115 100)
      ".a4-page\x7bfont-size:14px\x7d".data ".a4-page\x7bfont-size:14px\x7d".data
      "14".data "px" (mkRat 14 1) (mkRat 21 2) (mkRat 115 100)
      (by decide) (by decide) (by decide) (by decide),
    c6_unit_table_and_defaults.2.2.2.2⟩

theorem listItemPara_run_size (cs : NodeList) (hd : Bool) (rt : String)
    (b lh : ℚ) (r : Run) (hr : r ∈ (listItemPara cs hd rt b lh).runs) :
    r.sizePt = b := by
  simp only [listItemPara] at hr
  rcases List.mem_append.mp hr with h1 | h1
  · rcases List.mem_append.mp h1 with h2 | h2
    · cases hd
      · simp at h2
      · simp at h2
        rw [h2]
    · rcases List.mem_map.mp h2 with ⟨f, _, h3⟩
      rw [← h3]
      rfl
  · unfold tabRuns at h1
    by_cases h : rt = ""
    · rw [if_pos h] at h1
      simp at h1
    · rw [if_neg h] at h1
      simp at h1
      rw [h1]

/-- C4: every emitted font size is the fixed multiple of the base size
b required by the spec: name-header runs are 2.38 times b, contact-line
runs 1.14 times b, section-title runs 1.24 times b, and every run of a
list-item paragraph (bullet glyph, fragment runs and the tab run alike)
is exactly b. -/
theorem c4_font_size_multiples (roots : NodeList) (b lh : ℚ) (t : String)
    (li : Node) (p q : Para) (r : Run) :
    (p ∈ nameParas roots b → r ∈ p.runs → r.sizePt = b * 2.38)
    ∧ (q ∈ contactParas roots b → r ∈ q.runs → r.sizePt = b * 1.14)
    ∧ (r ∈ (sectionTitlePara t b).runs → r.sizePt = b * 1.24)
    ∧ (r ∈ (processLi li b lh).runs → r.sizePt = b) := by
  refine ⟨?_, ?_, ?_, ?_⟩
  · intro hp hr
    unfold nameParas at hp
    rcases hf : findFirstL isNameHeader roots with _ | n <;> rw [hf] at hp
    · simp at hp
    · simp at hp
      rw [hp] at hr
      simp at hr
      rw [hr]
      exact ratMul_238 b
  · intro hp hr
    unfold contactParas at hp
    rcases hf : findFirstL isContactDiv roots with _ | n <;> rw [hf] at hp
    · simp at hp
    · simp at hp
      rw [hp] at hr
      simp at hr
      rw [hr]
      exact ratMul_114 b
  · intro hr
    simp only [sectionTitlePara] at hr
    simp at hr
    rw [hr]
    exact ratMul_124 b
  · intro hr
    unfold processLi at hr
    exact listItemPara_run_size _ _ _ b lh r hr

theorem c4_witness :
    ({ text := "N", sizePt := mkRat 119 5, bold := true, italic := false } : Run).sizePt
        = (10 : ℚ) * 2.38
    ∧ ({ text := "C", sizePt := mkRat 57 5, bold := false, italic := false } : Run).sizePt
        = (10 : ℚ) * 1.14
    ∧ ({ text := "T", sizePt := mkRat 62 5, bold := true, italic := false } : Run).sizePt
        = (10 : ℚ) * 1.24
    ∧ ({ text := "• ", sizePt := 10, bold := false, italic := false } : Run).sizePt
        = (10 : ℚ) :=
  ⟨(c4_font_size_multiples
      (nlOfList [el "div" ["name-header"] [tx "N"], el "div" ["contact-info"] [tx "C"]])
      10 1 "T" (el "li" [] [tx "B"])
      { runs := [{ text := "N", sizePt := mkRat 119 5, bold := true, italic := false }],
        centered := true, bottomBorder := false, spaceBeforePt := none,
        spaceAfterPt := some 6, lineSpacing := none, leftIndentInches := none,
        rightTabStopInches := none }
      (blankPara 6)
      { text := "N", sizePt := mkRat 119 5, bold := true, italic := false }).1
      (by decide) (by decide),
   (c4_font_size_multiples
      (nlOfList [el "div" ["name-header"] [tx "N"], el "div" ["contact-info"] [tx "C"]])
      10 1 "T" (el "li" [] [tx "B"])
      (blankPara 6)
      { runs := [{ text := "C", sizePt := mkRat 57 5, bold := false, italic := false }],
        centered := true, bottomBorder := false, spaceBeforePt := none,
        spaceAfterPt := some 12, lineSpacing := none, leftIndentInches := none,
        rightTabStopInches := none }
      { text := "C", sizePt := mkRat 57 5, bold := false, italic := false }).2.1
      (by decide) (by decide),
   (c4_font_size_multiples .nil 10 1 "T" (el "li" [] [tx "B"]) (blankPara 6)
      (blankPara 6)
      { text := "T", sizePt := mkRat 62 5, bold := true, italic := false }).2.2.1
      (by decide),
   (c4_font_size_multiples .nil 10 1 "T"
      (el "li" [] [el "span" ["dot"] [tx "m"], tx "B"]) (blankPara 6) (blankPara 6)
      { text := "• ", sizePt := 10, bold := false, italic := false }).2.2.2
      (by decide)⟩

/-- C10: only li elements that are direct children of the ul become
paragraphs (their number equals the number of direct li children, and a
non-li child contributes no item), and a nested list inside an item is
walked as an ordinary foreign tag: its whole text, including any deeper
li, becomes one plain fragment of the containing item instead of a
separate paragraph. -/
theorem c10_direct_li_only (ul n : Node) (rest cs2 : NodeList)
    (cl2 : List String) (b lh : ℚ) :
    (processList ul b lh).length = (directLiChildren ul).length
    ∧ (isTag "li" n = false → directLis (.cons n rest) = directLis rest)
    ∧ fragsOfL (.cons (.elem "ul" cl2 cs2) rest) =
        optFrag (normalizeText (getTextSpaceL cs2)) false false ++ fragsOfL rest := by
  refine ⟨by simp [processList], ?_, ?_⟩
  · intro h
    simp [directLis, h]
  · rw [fragsOfL, childFrags]
    simp

theorem c10_witness :
    (processList (el "ul" ["ul-section"]
        [el "li" [] [tx "a", el "ul" [] [el "li" [] [tx "deep"]]],
         el "li" [] [tx "b"]]) 11 1).length =
      (directLiChildren (el "ul" ["ul-section"]
        [el "li" [] [tx "a", el "ul" [] [el "li" [] [tx "deep"]]],
         el "li" [] [tx "b"]])).length
    ∧ directLis (.cons (tx "z") .nil) = directLis .nil
    ∧ fragsOfL (.cons (.elem "ul" [] (nlOfList [el "li" [] [tx "deep"]])) .nil) =
        optFrag (normalizeText (getTextSpaceL (nlOfList [el "li" [] [tx "deep"]])))
          false false ++ fragsOfL .nil :=
  ⟨(c10_direct_li_only (el "ul" ["ul-section"]
      [el "li" [] [tx "a", el "ul" [] [el "li" [] [tx "deep"]]],
       el "li" [] [tx "b"]]) (tx "z") .nil .nil [] 11 1).1,
   (c10_direct_li_only (el "ul" [] []) (tx "z") .nil .nil [] 11 1).2.1 (by decide),
   (c10_direct_li_only (el "ul" [] []) (tx "z") .nil
      (nlOfList [el "li" [] [tx "deep"]]) [] 11 1).2.2⟩

/-- C7 counterexample: a list item with two bullet-marker spans keeps
the second one in the walked tree, so its text leaks into the emitted
runs, contradicting the claim that marker text never appears regardless
of how many marker elements the item contains. -/
theorem c7_counterexample :
    ({ text := "Y", sizePt := 11, bold := false, italic := false } : Run) ∈
      (processLi (el "li" [] [el "span" ["dot"] [tx "X"],
        el "span" ["dot"] [tx "Y"]]) 11 1).runs := by
  decide

/-- C7 (amended): only the first bullet-marker span and the first
right-label span (in document order, wherever they sit among the
descendants) are excised before walking; the emitted runs are exactly
the bullet glyph, the fragments of the remaining tree after those two
removals, and the tab run carrying the stripped right-label text; any
further marker elements remain in the walked tree. -/
theorem c7_first_markers_excised (cl : List String) (cs cs1 cs2 : NodeList)
    (r d : Node) (b lh : ℚ)
    (h1 : (findFirstL isDotSpan cs).isSome = true)
    (h2 : extractL isRightSpan cs = some (cs1, r))
    (h3 : extractL isDotSpan cs1 = some (cs2, d)) :
    (processLi (.elem "li" cl cs) b lh).runs =
      { text := "• ", sizePt := b, bold := false, italic := false } ::
        ((fragsOfL cs2).map (fragRun b) ++ tabRuns (getTextStripped r) b) := by
  simp only [processLi, nodeChildren, h1, h2, h3, listItemPara]
  simp

theorem c7_witness :
    (processLi (.elem "li" []
        (nlOfList [el "span" ["dot"] [tx "m"], tx "Body",
          el "span" ["right-span"] [tx "2020"]])) 11 1).runs =
      { text := "• ", sizePt := 11, bold := false, italic := false } ::
        ((fragsOfL (nlOfList [tx "Body"])).map (fragRun 11) ++
          tabRuns (getTextStripped (el "span" ["right-span"] [tx "2020"])) 11) :=
  c7_first_markers_excised []
    (nlOfList [el "span" ["dot"] [tx "m"], tx "Body",
      el "span" ["right-span"] [tx "2020"]])
    (nlOfList [el "span" ["dot"] [tx "m"], tx "Body"])
    (nlOfList [tx "Body"])
    (el "span" ["right-span"] [tx "2020"]) (el "span" ["dot"] [tx "m"]) 11 1
    (by decide) (by decide) (by decide)

theorem fragsOfL_append : ∀ (a b : NodeList),
    fragsOfL (nlAppend a b) = fragsOfL a ++ fragsOfL b
  | .nil, b => by simp [nlAppend, fragsOfL]
  | .cons n a2, b => by
    simp [nlAppend, fragsOfL, fragsOfL_append a2 b]

/-- C8 counterexample: a bold element whose text is whitespace-only
emits no fragment at all, so the walker does not emit exactly one
fragment for every bold element encountered. -/
theorem c8_counterexample :
    (fragsOfL (nlOfList [el "b" [] [tx "\n"]])).length ≠ 1 := by
  decide

/-- C8 (amended): for every bold/strong or italic/emphasis element
whose normalized full text is non-empty, the walker emits exactly one
fragment carrying that full concatenated text with only the
corresponding flag set, both at top level and nested inside a
container; formatting never nests, so the element may contain children
of the other style and still yields the single flat fragment. -/
theorem c8_flat_formatting (nm : String) (cl cl2 : List String)
    (cs pre post rest : NodeList)
    (ht : normalizeText (getTextSpaceL cs) ≠ "") :
    ((nm = "b" ∨ nm = "strong") →
      fragsOfL (.cons (.elem nm cl cs) rest) =
        ⟨normalizeText (getTextSpaceL cs), true, false⟩ :: fragsOfL rest
      ∧ fragsOfL (.cons (.elem "span" cl2
          (nlAppend pre (.cons (.elem nm cl cs) post))) rest) =
        fragsOfL pre ++ (⟨normalizeText (getTextSpaceL cs), true, false⟩ ::
          (fragsOfL post ++ fragsOfL rest)))
    ∧ ((nm = "i" ∨ nm = "em") →
      fragsOfL (.cons (.elem nm cl cs) rest) =
        ⟨normalizeText (getTextSpaceL cs), false, true⟩ :: fragsOfL rest
      ∧ fragsOfL (.cons (.elem "span" cl2
          (nlAppend pre (.cons (.elem nm cl cs) post))) rest) =
        fragsOfL pre ++ (⟨normalizeText (getTextSpaceL cs), false, true⟩ ::
          (fragsOfL post ++ fragsOfL rest))) := by
  constructor
  · intro hnm
    have hcf : childFrags (.elem nm cl cs) =
        [⟨normalizeText (getTextSpaceL cs), true, false⟩] := by
      rcases hnm with h | h <;> subst h <;> simp [childFrags, optFrag, ht]
    constructor
    · rw [fragsOfL, hcf]
      rfl
    · rw [fragsOfL]
      have hspan : childFrags (.elem "span" cl2
          (nlAppend pre (.cons (.elem nm cl cs) post))) =
          fragsOfL (nlAppend pre (.cons (.elem nm cl cs) post)) := by
        simp [childFrags]
      rw [hspan, fragsOfL_append, fragsOfL, hcf]
      simp
  · intro hnm
    have hcf : childFrags (.elem nm cl cs) =
        [⟨normalizeText (getTextSpaceL cs), false, true⟩] := by
      rcases hnm with h | h <;> subst h <;> simp [childFrags, optFrag, ht]
    constructor
    · rw [fragsOfL, hcf]
      rfl
    · rw [fragsOfL]
      have hspan : childFrags (.elem "span" cl2
          (nlAppend pre (.cons (.elem nm cl cs) post))) =
          fragsOfL (nlAppend pre (.cons (.elem nm cl cs) post)) := by
        simp [childFrags]
      rw [hspan, fragsOfL_append, fragsOfL, hcf]
      simp

theorem c8_witness :
    fragsOfL (.cons (.elem "b" [] (nlOfList [tx "Hi ", el "i" [] [tx "there"]])) .nil) =
      ⟨normalizeText (getTextSpaceL (nlOfList [tx "Hi ", el "i" [] [tx "there"]])),
        true, false⟩ :: fragsOfL .nil :=
  ((c8_flat_formatting "b" [] [] (nlOfList [tx "Hi ", el "i" [] [tx "there"]])
      .nil .nil .nil (by decide)).1 (Or.inl rfl)).1

theorem collapseNLAux_noNL : ∀ (b : Bool) (l : List Char) (c : Char),
    c ∈ collapseNLAux b l → isNL c = false
  | _, [], c, h => by simp [collapseNLAux] at h
  | b, x :: rest, c, h => by
    rw [collapseNLAux] at h
    by_cases hx : isNL x = true
    · rw [if_pos hx] at h
      rcases List.mem_append.mp h with h1 | h2
      · cases b
        · simp at h1
          rw [h1]
          rfl
        · simp at h1
      · exact collapseNLAux_noNL true rest c h2
    · rw [if_neg hx] at h
      rcases List.mem_cons.mp h with h1 | h2
      · rw [h1]
        simpa using hx
      · exact collapseNLAux_noNL false rest c h2

theorem collapseNLAux_id : ∀ (b : Bool) (l : List Char),
    (∀ c ∈ l, isNL c = false) → collapseNLAux b l = l
  | _, [], _ => rfl
  | b, x :: rest, h => by
    rw [collapseNLAux]
    have hx : isNL x = false := h x (by simp)
    rw [if_neg (by simp [hx])]
    rw [collapseNLAux_id false rest (fun c hc => h c (by simp [hc]))]

theorem lengthDropWhileLe (p : Char → Bool) : ∀ (l : List Char),
    (l.dropWhile p).length ≤ l.length
  | [] => by simp
  | x :: rest => by
    rw [List.dropWhile_cons]
    by_cases hx : p x = true
    · rw [if_pos hx]
      exact le_trans (lengthDropWhileLe p rest) (by simp)
    · rw [if_neg hx]

theorem dropWhileIdem (p : Char → Bool) : ∀ (l : List Char),
    (l.dropWhile p).dropWhile p = l.dropWhile p
  | [] => rfl
  | x :: rest => by
    rw [List.dropWhile_cons]
    by_cases hx : p x = true
    · rw [if_pos hx]
      exact dropWhileIdem p rest
    · rw [if_neg hx, List.dropWhile_cons, if_neg hx]

theorem dropWhile_eq_of_prefix (p : Char → Bool) (A B : List Char)
    (hA : A.dropWhile p = A) (hpre : B <+: A) : B.dropWhile p = B := by
  cases hB : B with
  | nil => rfl
  | cons x t =>
    subst hB
    rcases hpre with ⟨u, hu⟩
    have hAx : A = x :: (t ++ u) := by
      rw [← hu]
      rfl
    by_cases hx : p x = true
    · exfalso
      rw [hAx, List.dropWhile_cons, if_pos hx] at hA
      have hlen := lengthDropWhileLe p (t ++ u)
      rw [hA] at hlen
      simp at hlen
    · rw [List.dropWhile_cons, if_neg hx]

theorem pyStripL_idem (l : List Char) : pyStripL (pyStripL l) = pyStripL l := by
  unfold pyStripL
  have hAdw : (l.dropWhile pyWs).dropWhile pyWs = l.dropWhile pyWs :=
    dropWhileIdem pyWs l
  have hpre : ((l.dropWhile pyWs).reverse.dropWhile pyWs).reverse <+:
      l.dropWhile pyWs := by
    have h0 : ((l.dropWhile pyWs).reverse.dropWhile pyWs).reverse <+:
        ((l.dropWhile pyWs).reverse).reverse :=
      List.reverse_prefix.mpr (List.dropWhile_suffix pyWs)
    rwa [List.reverse_reverse] at h0
  have h1 := dropWhile_eq_of_prefix pyWs (l.dropWhile pyWs)
    (((l.dropWhile pyWs).reverse.dropWhile pyWs).reverse) hAdw hpre
  rw [h1, List.reverse_reverse, dropWhileIdem]

theorem mem_pyStripL (c : Char) (l : List Char) (h : c ∈ pyStripL l) : c ∈ l := by
  unfold pyStripL at h
  rw [List.mem_reverse] at h
  have h2 := (List.dropWhile_sublist pyWs).subset h
  rw [List.mem_reverse] at h2
  exact (List.dropWhile_sublist pyWs).subset h2

theorem normalizeText_noNL (s : String) (c : Char)
    (h : c ∈ (normalizeText s).data) : isNL c = false := by
  have h2 : c ∈ pyStripL (collapseNL s.data) := h
  exact collapseNLAux_noNL false s.data c (mem_pyStripL c (collapseNL s.data) h2)

theorem normalizeText_idem (s : String) :
    normalizeText (normalizeText s) = normalizeText s := by
  show String.mk (pyStripL (collapseNL (pyStripL (collapseNL s.data)))) =
    String.mk (pyStripL (collapseNL s.data))
  have hnl : ∀ c ∈ pyStripL (collapseNL s.data), isNL c = false := fun c hc =>
    collapseNLAux_noNL false s.data c (mem_pyStripL c _ hc)
  rw [show collapseNL (pyStripL (collapseNL s.data)) = pyStripL (collapseNL s.data)
    from collapseNLAux_id false _ hnl]
  rw [pyStripL_idem]

theorem mem_optFrag (s : String) (b i : Bool) (f : Fragment)
    (h : f ∈ optFrag s b i) : f.text = s ∧ s ≠ "" := by
  unfold optFrag at h
  by_cases hs : s = ""
  · rw [if_pos hs] at h
    simp at h
  · rw [if_neg hs] at h
    simp at h
    rw [h]
    exact ⟨rfl, hs⟩

theorem optFrag_good (s : String) (b i : Bool) (f : Fragment)
    (h : f ∈ optFrag (normalizeText s) b i) :
    f.text ≠ "" ∧ ∀ c ∈ f.text.data, isNL c = false := by
  rcases mem_optFrag _ _ _ _ h with ⟨h1, h2⟩
  rw [h1]
  exact ⟨h2, fun c hc => normalizeText_noNL s c hc⟩

mutual
theorem mem_childFrags_good : ∀ (n : Node) (f : Fragment), f ∈ childFrags n →
    f.text ≠ "" ∧ ∀ c ∈ f.text.data, isNL c = false
  | .text s, f, h => by
    rw [childFrags] at h
    exact optFrag_good _ _ _ f h
  | .elem nm cl cs, f, h => by
    rw [childFrags] at h
    split at h
    · exact optFrag_good _ _ _ f h
    · split at h
      · exact optFrag_good _ _ _ f h
      · split at h
        · exact mem_fragsOfL_good cs f h
        · exact optFrag_good _ _ _ f h
theorem mem_fragsOfL_good : ∀ (cs : NodeList) (f : Fragment), f ∈ fragsOfL cs →
    f.text ≠ "" ∧ ∀ c ∈ f.text.data, isNL c = false
  | .nil, f, h => by
    rw [fragsOfL] at h
    simp at h
  | .cons n rest, f, h => by
    rw [fragsOfL] at h
    rcases List.mem_append.mp h with h1 | h2
    · exact mem_childFrags_good n f h1
    · exact mem_fragsOfL_good rest f h2
end

/-- C9: the whitespace normalization of the walker is idempotent; every
fragment the walker emits has non-empty text containing no raw newline
or carriage return; and an all-whitespace text node yields no fragment
at all rather than an empty-string fragment. -/
theorem c9_normalization_idempotent (s s2 : String) (cs : NodeList) (f : Fragment) :
    normalizeText (normalizeText s) = normalizeText s
    ∧ (f ∈ fragsOfL cs → f.text ≠ "" ∧ ∀ c ∈ f.text.data, isNL c = false)
    ∧ (normalizeText s2 = "" → childFrags (.text s2) = []) := by
  refine ⟨normalizeText_idem s, fun h => mem_fragsOfL_good cs f h, fun h => ?_⟩
  simp [childFrags, optFrag, h]

theorem c9_witness :
    normalizeText (normalizeText " a\nb ") = normalizeText " a\nb "
    ∧ ((⟨"a b", false, false⟩ : Fragment).text ≠ "" ∧
        ∀ c ∈ (⟨"a b", false, false⟩ : Fragment).text.data, isNL c = false)
    ∧ childFrags (.text " \n ") = [] :=
  ⟨(c9_normalization_idempotent " a\nb " " \n " (nlOfList [tx " a\nb "])
      ⟨"a b", false, false⟩).1,
   (c9_normalization_idempotent " a\nb " " \n " (nlOfList [tx " a\nb "])
      ⟨"a b", false, false⟩).2.1 (by decide),
   (c9_normalization_idempotent " a\nb " " \n " (nlOfList [tx " a\nb "])
      ⟨"a b", false, false⟩).2.2 (by decide)⟩
